import Mathlib

/-!
Shallow embedding of the HX711 load-cell ADC driver (`src/lib.rs`) and
verification of its specification.

The driver talks to the chip over two GPIO lines: an output clock line
(`pd_sck`) and an input data line (`dout`), both fallible, plus a
microsecond delay provider.  We model the external pin world as an
oracle, a stream of responses indexed by the order in which the driver
performs line accesses (clock writes and data reads); each access either
succeeds or faults with an opaque error value of type `ε`.  Every
successful line operation, and every delay request, is appended to an
event trace, so timing and pulse-count claims become statements about
the trace.
-/

/-- Three modes of the HX711 from `enum Mode` in the source.  The Rust
discriminants are 1, 2 and 3; `retrieve` casts the mode to that number
(`self.mode as u16`) to decide how many trailing pulses to emit. -/
inductive Mode where
  | chAGain128
  | chBGain32
  | chBGain64
deriving DecidableEq

/-- Value of the Rust cast `self.mode as u16`: the enum discriminant. -/
def Mode.asU16 : Mode → Nat
  | .chAGain128 => 1
  | .chBGain32 => 2
  | .chBGain64 => 3

/-- Maximum ADC value: `pub const MAX_VALUE: i32 = (1 << 23) - 1`. -/
def MAX_VALUE : Int := 2 ^ 23 - 1

/-- Minimum ADC value as published: `pub const MIN_VALUE: i32 = (1 << 23)`. -/
def MIN_VALUE : Int := 2 ^ 23

/-- Sign extension `fn i24_to_i32(x: i32) -> i32`:
`if x >= 0x80_0000 { x | !0x00FF_FFFF } else { x }`.
Rust `!0x00FF_FFFF` on `i32` is bitwise not, i.e. `Int.lnot 0xFFFFFF`. -/
def i24_to_i32 (x : Int) : Int :=
  if x ≥ 0x800000 then Int.lor x (Int.lnot 0xFFFFFF) else x

/-- Bits of `0xFFFFFF` not set in `m`, for `m ≤ 0xFFFFFF`, are exactly
the binary digits of `0xFFFFFF - m`. -/
lemma ldiff_ffffff (m : Nat) (hm : m ≤ 0xFFFFFF) :
    Nat.ldiff 0xFFFFFF m = 0xFFFFFF - m := by
  apply Nat.eq_of_testBit_eq
  intro i
  rw [Nat.testBit_ldiff]
  have h1 : (0xFFFFFF : Nat) = 2 ^ 24 - 1 := by norm_num
  have h2 : (0xFFFFFF : Nat) - m = 2 ^ 24 - (m + 1) := by omega
  rw [h2, Nat.testBit_two_pow_sub_succ (by omega), h1,
    Nat.testBit_two_pow_sub_one]

/-- Nonnegative branch of the sign extension: inputs below `0x800000`
pass through unchanged. -/
lemma i24_to_i32_low (x : Int) (hx : x < 0x800000) : i24_to_i32 x = x := by
  unfold i24_to_i32
  rw [if_neg (by omega)]

/-- Negative branch of the sign extension: inputs in
`[0x800000, 0xFFFFFF]` are shifted down by `0x1000000`. -/
lemma i24_to_i32_high (x : Int) (h1 : 0x800000 ≤ x) (h2 : x ≤ 0xFFFFFF) :
    i24_to_i32 x = x - 0x1000000 := by
  obtain ⟨m, rfl⟩ := Int.eq_ofNat_of_zero_le (by omega : (0 : Int) ≤ x)
  have hm1 : 0x800000 ≤ m := by exact_mod_cast h1
  have hm2 : m ≤ 0xFFFFFF := by exact_mod_cast h2
  unfold i24_to_i32
  rw [if_pos (by exact_mod_cast h1)]
  show Int.lor (Int.ofNat m) (Int.lnot (Int.ofNat 0xFFFFFF)) = _
  rw [show Int.lnot (Int.ofNat 0xFFFFFF) = Int.negSucc 0xFFFFFF from rfl]
  show Int.negSucc (Nat.ldiff 0xFFFFFF m) = _
  rw [ldiff_ffffff m hm2, Int.negSucc_eq]
  have : ((0xFFFFFF - m : Nat) : Int) = 0xFFFFFF - (m : Int) := by
    push_cast [hm2]
    ring
  rw [this]
  ring

/-- C1: the sign-extension function maps every 24-bit value in
`[0, 0x7FFFFF]` to itself, every value in `[0x800000, 0xFFFFFF]` to
`x - 0x1000000`, matches the four concrete test vectors, and is total
(it is a plain Lean function `Int → Int`). -/
theorem i24_to_i32_spec (x : Int) (h0 : 0 ≤ x) (h1 : x ≤ 0xFFFFFF) :
    (x ≤ 0x7FFFFF → i24_to_i32 x = x) ∧
    (0x800000 ≤ x → i24_to_i32 x = x - 0x1000000) ∧
    i24_to_i32 0x000001 = 1 ∧ i24_to_i32 0x000002 = 2 ∧
    i24_to_i32 0xFFFFFF = -1 ∧ i24_to_i32 0xFFFFF3 = -13 := by
  refine ⟨fun h => i24_to_i32_low x (by omega), fun h => i24_to_i32_high x h h1,
    i24_to_i32_low 1 (by norm_num), i24_to_i32_low 2 (by norm_num), ?_, ?_⟩
  · rw [i24_to_i32_high 0xFFFFFF (by norm_num) (by norm_num)]
    norm_num
  · rw [i24_to_i32_high 0xFFFFF3 (by norm_num) (by norm_num)]
    norm_num

/-- Witness for C1 at the concrete inputs 5 and `0xFFFFF3`. -/
theorem i24_to_i32_spec_witness :
    i24_to_i32 5 = 5 ∧ i24_to_i32 0xFFFFF3 = 0xFFFFF3 - 0x1000000 :=
  ⟨(i24_to_i32_spec 5 (by norm_num) (by norm_num)).1 (by norm_num),
    (i24_to_i32_spec 0xFFFFF3 (by norm_num) (by norm_num)).2.1 (by norm_num)⟩

/-- Response of the pin world to one line access.  Modelled from the
embedded-hal pin traits the driver consumes (external collaborators):
each access either succeeds (for a data read, `b` is the observed level,
`true` meaning high; for a clock write `b` is ignored) or faults with an
opaque error of type `ε` (the driver's `PINERR`). -/
inductive Resp (ε : Type) where
  | ok (b : Bool)
  | fault (e : ε)
deriving DecidableEq

/-- Pin-world oracle: the response to the k-th line access of a run. -/
abbrev Env (ε : Type) := Nat → Resp ε

/-- Observable events of a run: successful clock-line writes, successful
data-line reads (with the level read), and delay requests (with the
requested microseconds). -/
inductive Event where
  | clockHigh
  | clockLow
  | dataRead (b : Bool)
  | delayUs (us : Nat)
deriving DecidableEq

/-- Interpreter state threaded through a run: `n` counts the line
accesses performed so far (the next oracle index) and `tr` is the event
log of everything that happened. -/
structure RunSt where
  n : Nat
  tr : List Event
deriving DecidableEq

/-- Clock write `self.pd_sck.set_high()`. -/
def set_high {ε : Type} (env : Env ε) (s : RunSt) : Except ε Unit × RunSt :=
  match env s.n with
  | .ok _ => (Except.ok (), ⟨s.n + 1, s.tr ++ [Event.clockHigh]⟩)
  | .fault e => (Except.error e, ⟨s.n + 1, s.tr⟩)

/-- Clock write `self.pd_sck.set_low()`. -/
def set_low {ε : Type} (env : Env ε) (s : RunSt) : Except ε Unit × RunSt :=
  match env s.n with
  | .ok _ => (Except.ok (), ⟨s.n + 1, s.tr ++ [Event.clockLow]⟩)
  | .fault e => (Except.error e, ⟨s.n + 1, s.tr⟩)

/-- Data read `self.dout.is_high()`. -/
def is_high {ε : Type} (env : Env ε) (s : RunSt) : Except ε Bool × RunSt :=
  match env s.n with
  | .ok b => (Except.ok b, ⟨s.n + 1, s.tr ++ [Event.dataRead b]⟩)
  | .fault e => (Except.error e, ⟨s.n + 1, s.tr⟩)

/-- Delay request `delay.delay_us(us)`; infallible, consumes no oracle
response, recorded in the trace. -/
def delay_us (us : Nat) (s : RunSt) : RunSt :=
  ⟨s.n, s.tr ++ [Event.delayUs us]⟩

/-- Error type of `retrieve`: Rust `nb::Error<PINERR>`, either the
not-ready signal `WouldBlock` or a propagated line-access error. -/
inductive NbError (ε : Type) where
  | wouldBlock
  | other (e : ε)
deriving DecidableEq

/-- The 24-bit acquisition loop of `retrieve` (`for _ in 0..24`), with
`i` iterations left and accumulator `count`.  Each iteration shifts the
accumulator left (`count <<= 1`, multiplication by 2 since the i32
cannot overflow in 24 iterations from 0), drives the clock high, waits
1 us, samples the data line and adds the bit, drives the clock low and
waits 1 us.  Every `?` on a pin call aborts with the pin error. -/
def readBits {ε : Type} (env : Env ε) : Nat → Int → RunSt →
    Except (NbError ε) Int × RunSt
  | 0, count, s => (Except.ok count, s)
  | i + 1, count, s =>
    let count := count * 2
    match set_high env s with
    | (Except.error e, s) => (Except.error (NbError.other e), s)
    | (Except.ok _, s) =>
      let s := delay_us 1 s
      match is_high env s with
      | (Except.error e, s) => (Except.error (NbError.other e), s)
      | (Except.ok b, s) =>
        let count := if b then count + 1 else count
        match set_low env s with
        | (Except.error e, s) => (Except.error (NbError.other e), s)
        | (Except.ok _, s) =>
          let s := delay_us 1 s
          readBits env i count s

/-- The trailing mode-selection pulses of `retrieve`
(`for _ in 0..n_reads`), with `i` pulses left: clock high, 1 us, clock
low, 1 us, each write fallible. -/
def modePulses {ε : Type} (env : Env ε) : Nat → RunSt →
    Except (NbError ε) Unit × RunSt
  | 0, s => (Except.ok (), s)
  | i + 1, s =>
    match set_high env s with
    | (Except.error e, s) => (Except.error (NbError.other e), s)
    | (Except.ok _, s) =>
      let s := delay_us 1 s
      match set_low env s with
      | (Except.error e, s) => (Except.error (NbError.other e), s)
      | (Except.ok _, s) =>
        let s := delay_us 1 s
        modePulses env i s

/-- `fn retrieve(&mut self, delay) -> nb::Result<i32, PINERR>`: drive
the clock low; read the data line and return `WouldBlock` if it is high;
otherwise wait 1 us, shift in 24 bits, emit `self.mode as u16` trailing
pulses, and return the sign-extended accumulator. -/
def retrieve {ε : Type} (mode : Mode) (env : Env ε) (s : RunSt) :
    Except (NbError ε) Int × RunSt :=
  match set_low env s with
  | (Except.error e, s) => (Except.error (NbError.other e), s)
  | (Except.ok _, s) =>
    match is_high env s with
    | (Except.error e, s) => (Except.error (NbError.other e), s)
    | (Except.ok b, s) =>
      if b then (Except.error NbError.wouldBlock, s)
      else
        let s := delay_us 1 s
        match readBits env 24 0 s with
        | (Except.error e, s) => (Except.error e, s)
        | (Except.ok count, s) =>
          match modePulses env mode.asU16 s with
          | (Except.error e, s) => (Except.error e, s)
          | (Except.ok _, s) => (Except.ok (i24_to_i32 count), s)

/-- Driver state `struct Hx711`: besides the two owned pins (modelled by
the oracle) it holds only the current mode. -/
structure Hx711 where
  mode : Mode
deriving DecidableEq

/-- `fn new(dout, pd_sck) -> Self`: stores the pins and initializes the
mode to `ChAGain128`.  The body performs no pin operation, so the run
state is returned unchanged. -/
def new (s : RunSt) : Hx711 × RunSt :=
  ({ mode := Mode.chAGain128 }, s)

/-- `fn enable(&mut self)`: returns `self.pd_sck.set_low()`. -/
def enable {ε : Type} (env : Env ε) (s : RunSt) : Except ε Unit × RunSt :=
  set_low env s

/-- `fn disable(&mut self, delay)`: `self.pd_sck.set_high()?` then
`delay.delay_us(60)`. -/
def disable {ε : Type} (env : Env ε) (s : RunSt) : Except ε Unit × RunSt :=
  match set_high env s with
  | (Except.error e, s) => (Except.error e, s)
  | (Except.ok _, s) => (Except.ok (), delay_us 60 s)

/-- The `nb::block!` retry loop around `retrieve`: retry while the
result is `WouldBlock`, stop at the first other outcome.  `fuel` bounds
the number of attempts of this model; `none` means every attempt within
fuel returned `WouldBlock` (the Rust loop would still be spinning). -/
def block_retrieve {ε : Type} (mode : Mode) (env : Env ε) :
    Nat → RunSt → Option (Except ε Int × RunSt)
  | 0, _ => none
  | fuel + 1, s =>
    match retrieve mode env s with
    | (Except.error NbError.wouldBlock, s) => block_retrieve mode env fuel s
    | (Except.error (NbError.other e), s) => some (Except.error e, s)
    | (Except.ok v, s) => some (Except.ok v, s)

/-- `fn set_mode(&mut self, mode, delay)`: `self.mode = mode;` then
`block!(self.retrieve(delay)).map(|_| ())`.  Returns the updated driver
and, when the retry loop finishes within fuel, the unit-mapped result
of the forced retrieval. -/
def set_mode {ε : Type} (h : Hx711) (mode : Mode) (env : Env ε)
    (fuel : Nat) (s : RunSt) :
    Hx711 × Option (Except ε Unit × RunSt) :=
  let h := { h with mode := mode }
  (h, (block_retrieve h.mode env fuel s).map
    (fun r => (r.1.map (fun _ => ()), r.2)))

/-- Fault-free pin world: every access succeeds and the k-th access,
when it is a data read, observes level `bits k`. -/
def envOfBits {ε : Type} (bits : Nat → Bool) : Env ε :=
  fun k => Resp.ok (bits k)

/-- Events produced by `i` fault-free iterations of the 24-bit loop
starting at oracle index `k`. -/
def bitTrace (bits : Nat → Bool) : Nat → Nat → List Event
  | _, 0 => []
  | k, i + 1 =>
    Event.clockHigh :: Event.delayUs 1 :: Event.dataRead (bits (k + 1)) ::
      Event.clockLow :: Event.delayUs 1 :: bitTrace bits (k + 3) i

/-- Accumulator after `i` fault-free iterations of the 24-bit loop
starting at oracle index `k` with accumulator `count`. -/
def bitsVal (bits : Nat → Bool) : Nat → Nat → Int → Int
  | _, 0, count => count
  | k, i + 1, count =>
    bitsVal bits (k + 3) i (if bits (k + 1) then count * 2 + 1 else count * 2)

/-- Events produced by `i` fault-free trailing mode pulses. -/
def pulseTrace : Nat → List Event
  | 0 => []
  | i + 1 =>
    Event.clockHigh :: Event.delayUs 1 :: Event.clockLow :: Event.delayUs 1 ::
      pulseTrace i

/-- Whether an event is a clock-line operation. -/
def isClock : Event → Bool
  | Event.clockHigh => true
  | Event.clockLow => true
  | _ => false

/-- The clock-line operations of a trace, in order. -/
def clockOps (t : List Event) : List Event :=
  t.filter isClock

/-- Clock operations of `n` full high-then-low clock cycles. -/
def cycles : Nat → List Event
  | 0 => []
  | n + 1 => Event.clockHigh :: Event.clockLow :: cycles n

lemma clockOps_append (t u : List Event) :
    clockOps (t ++ u) = clockOps t ++ clockOps u := by
  simp [clockOps, List.filter_append]

lemma cycles_add (a b : Nat) : cycles (a + b) = cycles a ++ cycles b := by
  induction a with
  | zero => simp [cycles]
  | succ a ih => simp [Nat.succ_add, cycles, ih]

lemma clockOps_bitTrace (bits : Nat → Bool) :
    ∀ i k, clockOps (bitTrace bits k i) = cycles i := by
  intro i
  induction i with
  | zero => intro k; simp [bitTrace, clockOps, cycles]
  | succ i ih =>
    intro k
    simp [bitTrace, clockOps, cycles, List.filter, isClock] at ih ⊢
    exact ih (k + 3)

lemma clockOps_pulseTrace : ∀ i, clockOps (pulseTrace i) = cycles i := by
  intro i
  induction i with
  | zero => simp [pulseTrace, clockOps, cycles]
  | succ i ih =>
    simp [pulseTrace, clockOps, cycles, List.filter, isClock] at ih ⊢
    exact ih

lemma getLast_cycles (n : Nat) :
    ∀ l : List Event, (l ++ Event.clockLow :: cycles n).getLast? =
      some Event.clockLow := by
  induction n with
  | zero => intro l; simp [cycles]
  | succ n ih =>
    intro l
    have := ih (l ++ [Event.clockLow, Event.clockHigh])
    simpa [cycles, List.append_assoc] using this

/-- Fault-free characterization of the 24-bit acquisition loop. -/
lemma readBits_ok {ε : Type} (bits : Nat → Bool) :
    ∀ (i : Nat) (count : Int) (s : RunSt),
    readBits (envOfBits bits : Env ε) i count s =
      (Except.ok (bitsVal bits s.n i count),
        ⟨s.n + 3 * i, s.tr ++ bitTrace bits s.n i⟩) := by
  intro i
  induction i with
  | zero => intro count s; simp [readBits, bitsVal, bitTrace]
  | succ i ih =>
    intro count s
    simp only [readBits, set_high, is_high, set_low, delay_us, envOfBits]
    rw [ih]
    simp [bitsVal, bitTrace, List.append_assoc]
    omega

/-- Fault-free characterization of the trailing mode pulses. -/
lemma modePulses_ok {ε : Type} (bits : Nat → Bool) :
    ∀ (i : Nat) (s : RunSt),
    modePulses (envOfBits bits : Env ε) i s =
      (Except.ok (), ⟨s.n + 2 * i, s.tr ++ pulseTrace i⟩) := by
  intro i
  induction i with
  | zero => intro s; simp [modePulses, pulseTrace]
  | succ i ih =>
    intro s
    simp only [modePulses, set_high, set_low, delay_us, envOfBits]
    rw [ih]
    simp [pulseTrace, List.append_assoc]
    omega

/-- Fault-free, data-ready characterization of `retrieve`: the exact
result value and the exact final run state. -/
lemma retrieve_ok {ε : Type} (m : Mode) (bits : Nat → Bool) (s : RunSt)
    (h : bits (s.n + 1) = false) :
    retrieve m (envOfBits bits : Env ε) s =
      (Except.ok (i24_to_i32 (bitsVal bits (s.n + 2) 24 0)),
        ⟨s.n + 2 + 3 * 24 + 2 * m.asU16,
          s.tr ++ [Event.clockLow, Event.dataRead false, Event.delayUs 1]
            ++ bitTrace bits (s.n + 2) 24 ++ pulseTrace m.asU16⟩) := by
  simp only [retrieve, set_low, is_high, delay_us, envOfBits, h]
  rw [readBits_ok bits 24 0 ⟨s.n + 1 + 1,
    (s.tr ++ [Event.clockLow] ++ [Event.dataRead false]) ++ [Event.delayUs 1]⟩]
  simp [modePulses_ok, List.append_assoc]

/-- C2: a fault-free `retrieve` that finds the data line low (and hence
returns Ok) performs, after the readiness check, exactly `24 + N` full
high-then-low clock cycles where `N` is the current mode's extra-pulse
count (1, 2 or 3, so 25, 26 or 27 cycles), and the last clock-line
operation of the whole call is a low drive. -/
theorem retrieve_clock_cycles {ε : Type} (m : Mode) (bits : Nat → Bool)
    (s : RunSt) (h : bits (s.n + 1) = false) :
    (∃ v, (retrieve m (envOfBits bits : Env ε) s).1 = Except.ok v) ∧
    clockOps (retrieve m (envOfBits bits : Env ε) s).2.tr =
      clockOps s.tr ++ Event.clockLow :: cycles (24 + m.asU16) ∧
    (clockOps (retrieve m (envOfBits bits : Env ε) s).2.tr).getLast? =
      some Event.clockLow ∧
    Mode.chAGain128.asU16 = 1 ∧ Mode.chBGain32.asU16 = 2 ∧
    Mode.chBGain64.asU16 = 3 := by
  have h2 : clockOps (retrieve m (envOfBits bits : Env ε) s).2.tr =
      clockOps s.tr ++ Event.clockLow :: cycles (24 + m.asU16) := by
    rw [retrieve_ok m bits s h]
    rw [clockOps_append, clockOps_append, clockOps_append, clockOps_bitTrace,
      clockOps_pulseTrace, cycles_add]
    simp [clockOps, isClock]
  refine ⟨?_, h2, ?_, rfl, rfl, rfl⟩
  · rw [retrieve_ok m bits s h]
    exact ⟨_, rfl⟩
  · rw [h2]
    exact getLast_cycles _ _

/-- Witness for C2 in mode `ChAGain128` with an all-low data line. -/
theorem retrieve_clock_cycles_witness :
    clockOps (retrieve Mode.chAGain128
        (envOfBits (fun _ => false) : Env Unit) ⟨0, []⟩).2.tr =
      Event.clockLow :: cycles 25 := by
  have h := (@retrieve_clock_cycles Unit Mode.chAGain128 (fun _ => false)
    ⟨0, []⟩ rfl).2.1
  simpa [clockOps, Mode.asU16] using h

/-- C3: a fault-free `retrieve` returns `WouldBlock` exactly when the
data line reads high right after the initial clock-low drive, and in
that case it returns immediately: the run consumed only the initial low
drive and the one readiness read, so no clock pulse was issued and no
data bit sampled. -/
theorem retrieve_wouldBlock {ε : Type} (m : Mode) (bits : Nat → Bool)
    (s : RunSt) :
    ((retrieve m (envOfBits bits : Env ε) s).1 =
        Except.error NbError.wouldBlock ↔ bits (s.n + 1) = true) ∧
    (bits (s.n + 1) = true →
      retrieve m (envOfBits bits : Env ε) s =
        (Except.error NbError.wouldBlock,
          ⟨s.n + 2, s.tr ++ [Event.clockLow, Event.dataRead true]⟩)) := by
  cases hb : bits (s.n + 1) with
  | false =>
    rw [retrieve_ok m bits s hb]
    simp
  | true =>
    have hrun : retrieve m (envOfBits bits : Env ε) s =
        (Except.error NbError.wouldBlock,
          ⟨s.n + 2, s.tr ++ [Event.clockLow, Event.dataRead true]⟩) := by
      simp only [retrieve, set_low, is_high, envOfBits, hb]
      simp [List.append_assoc]
    rw [hrun]
    simp

/-- Witness for C3 with an all-high data line. -/
theorem retrieve_wouldBlock_witness :
    retrieve Mode.chBGain32 (envOfBits (fun _ => true) : Env Unit) ⟨0, []⟩ =
      (Except.error NbError.wouldBlock,
        ⟨2, [Event.clockLow, Event.dataRead true]⟩) :=
  (retrieve_wouldBlock Mode.chBGain32 (fun _ => true) ⟨0, []⟩).2 rfl

/-- Data line for the end-to-end scenario of C4: low for the readiness
read (oracle index 1), and across the 24 sampling reads (oracle indices
`3 + 3*i`) the MSB-first pattern `111111111111111111110011`, i.e. low
exactly at the 21st and 22nd sampled bits (indices 63 and 66). -/
def bitsC4 : Nat → Bool :=
  fun k => !(k == 1 || k == 63 || k == 66)

/-- C4: with the driver in the 3-extra-pulse mode `ChBGain64` and a
fault-free data line feeding the MSB-first bit pattern `0xFFFFF3`,
`retrieve` accumulates `0xFFFFF3` (shift left, then OR the bit in),
returns `Ok (-13)`, and the clock log shows the readiness low drive
followed by exactly 27 full high/low cycles. -/
theorem retrieve_e2e :
    (retrieve Mode.chBGain64 (envOfBits bitsC4 : Env Unit) ⟨0, []⟩).1 =
      Except.ok (-13) ∧
    clockOps (retrieve Mode.chBGain64
        (envOfBits bitsC4 : Env Unit) ⟨0, []⟩).2.tr =
      Event.clockLow :: cycles 27 ∧
    bitsVal bitsC4 2 24 0 = 0xFFFFF3 ∧ Mode.chBGain64.asU16 = 3 := by
  have hv : bitsVal bitsC4 2 24 0 = 0xFFFFF3 := by decide
  have hrun := @retrieve_ok Unit Mode.chBGain64 bitsC4 ⟨0, []⟩ rfl
  refine ⟨?_, ?_, hv, rfl⟩
  · rw [hrun]
    show Except.ok (i24_to_i32 (bitsVal bitsC4 (0 + 2) 24 0)) = _
    rw [show (0 + 2 : Nat) = 2 from rfl, hv,
      i24_to_i32_high 0xFFFFF3 (by norm_num) (by norm_num)]
    norm_num
  · rw [hrun]
    rw [show Mode.chBGain64.asU16 = 3 from rfl,
      show (27 : Nat) = 24 + 3 from rfl, cycles_add]
    rw [clockOps_append, clockOps_append, clockOps_append, clockOps_bitTrace,
      clockOps_pulseTrace]
    simp [clockOps, isClock]

/-- C6 counterexample: at the concrete initial run state, `new` leaves
the event trace empty, so in particular it does not drive the clock line
low during construction, refuting the claim that construction sets the
clock line low. -/
theorem new_no_clock_write :
    (new ⟨0, []⟩).2.tr = [] ∧
    Event.clockLow ∉ (new ⟨0, []⟩).2.tr ∧
    (new ⟨0, []⟩).1.mode = Mode.chAGain128 := by
  refine ⟨rfl, ?_, rfl⟩
  simp [new]

/-- C6 (amended): construction initializes the mode to `ChAGain128` and
performs no line operation at all — no clock write (in particular no
low drive), no data read, no delay: the pin world is untouched. -/
theorem new_spec (s : RunSt) :
    (new s).1.mode = Mode.chAGain128 ∧ (new s).2 = s :=
  ⟨rfl, rfl⟩

/-- C7: `disable` drives the clock line high and then requests a delay
of at least 60 microseconds before returning Ok; if the clock write
faults it returns that error with no event at all (no delay). -/
theorem disable_spec {ε : Type} (env : Env ε) (s : RunSt) :
    (∀ b, env s.n = Resp.ok b →
      ∃ d, 60 ≤ d ∧ disable env s =
        (Except.ok (), ⟨s.n + 1, s.tr ++ [Event.clockHigh, Event.delayUs d]⟩)) ∧
    (∀ e, env s.n = Resp.fault e →
      disable env s = (Except.error e, ⟨s.n + 1, s.tr⟩)) := by
  constructor
  · intro b hb
    refine ⟨60, le_refl 60, ?_⟩
    simp [disable, set_high, delay_us, hb]
  · intro e he
    simp [disable, set_high, he]

/-- Witness for C7 on a healthy clock line. -/
theorem disable_spec_witness :
    ∃ d, 60 ≤ d ∧ disable (fun _ => Resp.ok false : Env Unit) ⟨0, []⟩ =
      (Except.ok (), ⟨1, [Event.clockHigh, Event.delayUs d]⟩) :=
  (disable_spec (fun _ => Resp.ok false : Env Unit) ⟨0, []⟩).1 false rfl

/-- When the first `retrieve` attempt does not return `WouldBlock`, the
`block!` loop stops right there with that attempt's outcome. -/
lemma block_retrieve_of_ok {ε : Type} (m : Mode) (env : Env ε) (s : RunSt)
    (fuel : Nat) (v : Int) (h : (retrieve m env s).1 = Except.ok v) :
    block_retrieve m env (fuel + 1) s =
      some (Except.ok v, (retrieve m env s).2) := by
  have hp : retrieve m env s = (Except.ok v, (retrieve m env s).2) := by
    rw [← h]
  simp only [block_retrieve]
  rw [hp]

/-- C5: `set_mode` stores the new mode as the driver's current mode,
then performs one blocking retrieval whose value it discards: the
run-state it returns is exactly the forced retrieval's, it succeeds
exactly when the forced retrieval succeeds, and its only failure is the
line-access error of the forced retrieval, propagated unchanged.  When
the chip is ready at the first attempt, the forced retrieval is one full
`retrieve` run. -/
theorem set_mode_spec {ε : Type} (h0 : Hx711) (m : Mode) (env : Env ε)
    (fuel : Nat) (s : RunSt) :
    (set_mode h0 m env fuel s).1.mode = m ∧
    (∀ v s1, block_retrieve m env fuel s = some (Except.ok v, s1) →
      (set_mode h0 m env fuel s).2 = some (Except.ok (), s1)) ∧
    (∀ e s1, block_retrieve m env fuel s = some (Except.error e, s1) →
      (set_mode h0 m env fuel s).2 = some (Except.error e, s1)) ∧
    (∀ v, (retrieve m env s).1 = Except.ok v → 0 < fuel →
      (set_mode h0 m env fuel s).2 =
        some (Except.ok (), (retrieve m env s).2)) ∧
    ((set_mode h0 m env fuel s).2 = none ∨
      (∃ s1, (set_mode h0 m env fuel s).2 = some (Except.ok (), s1) ∧
        ∃ v, block_retrieve m env fuel s = some (Except.ok v, s1)) ∨
      (∃ e s1, (set_mode h0 m env fuel s).2 = some (Except.error e, s1) ∧
        block_retrieve m env fuel s = some (Except.error e, s1))) := by
  refine ⟨rfl, ?_, ?_, ?_, ?_⟩
  · intro v s1 hb
    simp [set_mode, hb, Except.map]
  · intro e s1 hb
    simp [set_mode, hb, Except.map]
  · intro v hv hf
    cases fuel with
    | zero => omega
    | succ k =>
      rw [show (set_mode h0 m env (k + 1) s).2 =
        (block_retrieve m env (k + 1) s).map
          (fun r => (r.1.map (fun _ => ()), r.2)) from rfl]
      rw [block_retrieve_of_ok m env s k v hv]
      simp [Except.map]
  · cases hb : block_retrieve m env fuel s with
    | none =>
      left
      simp [set_mode, hb]
    | some r =>
      obtain ⟨r1, s1⟩ := r
      cases r1 with
      | ok v =>
        right; left
        exact ⟨s1, by simp [set_mode, hb, Except.map], v, rfl⟩
      | error e =>
        right; right
        exact ⟨e, s1, by simp [set_mode, hb, Except.map], rfl⟩

/-- Witness for C5: ready chip, fuel 1, mode change to `ChBGain32`. -/
theorem set_mode_spec_witness :
    (set_mode ⟨Mode.chAGain128⟩ Mode.chBGain32
        (envOfBits (fun _ => false) : Env Unit) 1 ⟨0, []⟩).1.mode =
      Mode.chBGain32 ∧
    (set_mode ⟨Mode.chAGain128⟩ Mode.chBGain32
        (envOfBits (fun _ => false) : Env Unit) 1 ⟨0, []⟩).2 =
      some (Except.ok (), (retrieve Mode.chBGain32
        (envOfBits (fun _ => false) : Env Unit) ⟨0, []⟩).2) := by
  have h := set_mode_spec ⟨Mode.chAGain128⟩ Mode.chBGain32
    (envOfBits (fun _ => false) : Env Unit) 1 ⟨0, []⟩
  refine ⟨h.1, h.2.2.2.1 0 ?_ (by norm_num)⟩
  rw [@retrieve_ok Unit Mode.chBGain32 (fun _ => false) ⟨0, []⟩ rfl]
  norm_num
  decide

/-- C10: the mode field is assigned before the forced dummy retrieval
runs, so even when `set_mode` reports a line-access error, the driver's
recorded mode afterwards is the new mode. -/
theorem set_mode_mode_on_error {ε : Type} (h0 : Hx711) (m : Mode)
    (env : Env ε) (fuel : Nat) (s : RunSt) (e : ε) (s1 : RunSt)
    (_h : (set_mode h0 m env fuel s).2 = some (Except.error e, s1)) :
    (set_mode h0 m env fuel s).1.mode = m :=
  rfl

/-- Witness for C10: the very first clock write faults, `set_mode`
reports the error, and the recorded mode is still the new one. -/
theorem set_mode_mode_on_error_witness :
    (set_mode ⟨Mode.chAGain128⟩ Mode.chBGain64
        (fun _ => Resp.fault () : Env Unit) 1 ⟨0, []⟩).1.mode =
      Mode.chBGain64 :=
  set_mode_mode_on_error ⟨Mode.chAGain128⟩ Mode.chBGain64
    (fun _ => Resp.fault () : Env Unit) 1 ⟨0, []⟩ () ⟨1, []⟩ rfl

/-- Whether an event is a line access (clock write or data read), as
opposed to a delay request. -/
def isAccess : Event → Bool
  | Event.delayUs _ => false
  | _ => true

/-- Number of line-access events recorded in a trace. -/
def naccs (t : List Event) : Nat :=
  (t.filter isAccess).length

lemma naccs_append (t u : List Event) :
    naccs (t ++ u) = naccs t + naccs u := by
  simp [naccs, List.filter_append]

/-- Abort invariant of the 24-bit loop: the oracle index never
decreases; if the loop ends in a line error, the error is the oracle's
fault at the last index consumed and every consumed access except that
faulting one was logged; if it returns Ok, every consumed access was
logged. -/
lemma readBits_inv {ε : Type} (env : Env ε) :
    ∀ (i : Nat) (count : Int) (s : RunSt) (r : Except (NbError ε) Int)
      (s2 : RunSt), readBits env i count s = (r, s2) →
    s.n ≤ s2.n ∧
    (∀ e, r = Except.error (NbError.other e) →
      env (s2.n - 1) = Resp.fault e ∧ s.n < s2.n ∧
      naccs s2.tr + 1 = naccs s.tr + (s2.n - s.n)) ∧
    (∀ v, r = Except.ok v →
      naccs s2.tr = naccs s.tr + (s2.n - s.n)) := by
  intro i
  induction i with
  | zero =>
    intro count s r s2 h
    simp only [readBits] at h
    cases h
    refine ⟨Nat.le_refl _, ?_, ?_⟩
    · intro e he
      exact absurd he (by simp)
    · intro v _
      omega
  | succ i ih =>
    intro count s r s2 h
    cases h0 : env s.n with
    | fault e0 =>
      simp only [readBits, set_high, h0] at h
      cases h
      refine ⟨by dsimp only; omega, ?_, ?_⟩
      · intro e he
        obtain rfl : e0 = e := by simpa using he
        refine ⟨by simpa using h0, by dsimp only; omega, by dsimp only; omega⟩
      · intro v hv
        exact absurd hv (by simp)
    | ok b0 =>
      cases h1 : env (s.n + 1) with
      | fault e1 =>
        simp only [readBits, set_high, is_high, delay_us, h0, h1] at h
        cases h
        have ha : naccs ((s.tr ++ [Event.clockHigh]) ++ [Event.delayUs 1]) =
            naccs s.tr + 1 := by
          simp [naccs, List.filter_append, isAccess]
        refine ⟨by dsimp only; omega, ?_, ?_⟩
        · intro e he
          obtain rfl : e1 = e := by simpa using he
          refine ⟨by simpa using h1, by dsimp only; omega, ?_⟩
          dsimp only
          omega
        · intro v hv
          exact absurd hv (by simp)
      | ok b =>
        cases h2 : env (s.n + 1 + 1) with
        | fault e2 =>
          simp only [readBits, set_high, is_high, set_low, delay_us,
            h0, h1, h2] at h
          cases h
          have ha : naccs (((s.tr ++ [Event.clockHigh]) ++ [Event.delayUs 1])
              ++ [Event.dataRead b]) = naccs s.tr + 2 := by
            simp [naccs, List.filter_append, isAccess]
          refine ⟨by dsimp only; omega, ?_, ?_⟩
          · intro e he
            obtain rfl : e2 = e := by simpa using he
            refine ⟨by simpa using h2, by dsimp only; omega, ?_⟩
            dsimp only
            omega
          · intro v hv
            exact absurd hv (by simp)
        | ok b2 =>
          simp only [readBits, set_high, is_high, set_low, delay_us,
            h0, h1, h2] at h
          obtain ⟨hle, herr, hok⟩ := ih _ _ _ _ h
          have ha : naccs (((((s.tr ++ [Event.clockHigh]) ++ [Event.delayUs 1])
              ++ [Event.dataRead b]) ++ [Event.clockLow]) ++ [Event.delayUs 1])
              = naccs s.tr + 3 := by
            simp [naccs, List.filter_append, isAccess]
          dsimp only at hle herr hok
          refine ⟨by omega, ?_, ?_⟩
          · intro e he
            obtain ⟨he1, he2, he3⟩ := herr e he
            exact ⟨he1, by omega, by omega⟩
          · intro v hv
            have := hok v hv
            omega

/-- Abort invariant of the trailing-pulse loop, in the same sense as
for the 24-bit loop. -/
lemma modePulses_inv {ε : Type} (env : Env ε) :
    ∀ (i : Nat) (s : RunSt) (r : Except (NbError ε) Unit) (s2 : RunSt),
      modePulses env i s = (r, s2) →
    s.n ≤ s2.n ∧
    (∀ e, r = Except.error (NbError.other e) →
      env (s2.n - 1) = Resp.fault e ∧ s.n < s2.n ∧
      naccs s2.tr + 1 = naccs s.tr + (s2.n - s.n)) ∧
    (r = Except.ok () →
      naccs s2.tr = naccs s.tr + (s2.n - s.n)) := by
  intro i
  induction i with
  | zero =>
    intro s r s2 h
    simp only [modePulses] at h
    cases h
    refine ⟨Nat.le_refl _, ?_, ?_⟩
    · intro e he
      exact absurd he (by simp)
    · intro _
      omega
  | succ i ih =>
    intro s r s2 h
    cases h0 : env s.n with
    | fault e0 =>
      simp only [modePulses, set_high, h0] at h
      cases h
      refine ⟨by dsimp only; omega, ?_, ?_⟩
      · intro e he
        obtain rfl : e0 = e := by simpa using he
        refine ⟨by simpa using h0, by dsimp only; omega, by dsimp only; omega⟩
      · intro hv
        exact absurd hv (by simp)
    | ok b0 =>
      cases h1 : env (s.n + 1) with
      | fault e1 =>
        simp only [modePulses, set_high, set_low, delay_us, h0, h1] at h
        cases h
        have ha : naccs ((s.tr ++ [Event.clockHigh]) ++ [Event.delayUs 1]) =
            naccs s.tr + 1 := by
          simp [naccs, List.filter_append, isAccess]
        refine ⟨by dsimp only; omega, ?_, ?_⟩
        · intro e he
          obtain rfl : e1 = e := by simpa using he
          refine ⟨by simpa using h1, by dsimp only; omega, ?_⟩
          dsimp only
          omega
        · intro hv
          exact absurd hv (by simp)
      | ok b1 =>
        simp only [modePulses, set_high, set_low, delay_us, h0, h1] at h
        obtain ⟨hle, herr, hok⟩ := ih _ _ _ h
        have ha : naccs ((((s.tr ++ [Event.clockHigh]) ++ [Event.delayUs 1])
            ++ [Event.clockLow]) ++ [Event.delayUs 1]) = naccs s.tr + 2 := by
          simp [naccs, List.filter_append, isAccess]
        dsimp only at hle herr hok
        refine ⟨by omega, ?_, ?_⟩
        · intro e he
          obtain ⟨he1, he2, he3⟩ := herr e he
          exact ⟨he1, by omega, by omega⟩
        · intro hv
          have := hok hv
          omega

/-- Abort invariant of a whole `retrieve` run that ends in a line
error: the error is the oracle's fault at the last consumed index, at
least one access was consumed, and every consumed access except the
faulting one was logged. -/
lemma retrieve_inv {ε : Type} (m : Mode) (env : Env ε) (s : RunSt)
    (r : Except (NbError ε) Int) (s2 : RunSt)
    (h : retrieve m env s = (r, s2)) (e : ε)
    (he : r = Except.error (NbError.other e)) :
    env (s2.n - 1) = Resp.fault e ∧ s.n < s2.n ∧
    naccs s2.tr + 1 = naccs s.tr + (s2.n - s.n) := by
  cases h0 : env s.n with
  | fault e0 =>
    simp only [retrieve, set_low, h0] at h
    cases h
    obtain rfl : e0 = e := by simpa using he
    exact ⟨by simpa using h0, by dsimp only; omega, by dsimp only; omega⟩
  | ok b0 =>
    cases h1 : env (s.n + 1) with
    | fault e1 =>
      simp only [retrieve, set_low, is_high, h0, h1] at h
      cases h
      obtain rfl : e1 = e := by simpa using he
      have ha : naccs (s.tr ++ [Event.clockLow]) = naccs s.tr + 1 := by
        simp [naccs, List.filter_append, isAccess]
      exact ⟨by simpa using h1, by dsimp only; omega, by dsimp only; omega⟩
    | ok b =>
      cases b with
      | true =>
        have hw : (retrieve m env s).1 = Except.error NbError.wouldBlock := by
          simp [retrieve, set_low, is_high, h0, h1]
        rw [h] at hw
        dsimp only at hw
        rw [hw] at he
        exact absurd he (by simp)
      | false =>
        simp only [retrieve, set_low, is_high, delay_us, h0, h1] at h
        have ha : naccs (((s.tr ++ [Event.clockLow]) ++
            [Event.dataRead false]) ++ [Event.delayUs 1]) =
            naccs s.tr + 2 := by
          simp [naccs, List.filter_append, isAccess]
        cases hrb : readBits env 24 0 ⟨s.n + 1 + 1,
            ((s.tr ++ [Event.clockLow]) ++ [Event.dataRead false]) ++
              [Event.delayUs 1]⟩ with
        | mk r1 s4 =>
          rw [hrb] at h
          obtain ⟨hle1, herr1, hok1⟩ := readBits_inv env 24 0 _ r1 s4 hrb
          dsimp only at hle1 herr1 hok1
          cases r1 with
          | error e1 =>
            dsimp only at h
            cases h
            obtain rfl : e1 = NbError.other e := by simpa using he
            obtain ⟨g1, g2, g3⟩ := herr1 e rfl
            exact ⟨g1, by omega, by omega⟩
          | ok v =>
            dsimp only at h
            cases hmp : modePulses env m.asU16 s4 with
            | mk r2 s5 =>
              rw [hmp] at h
              obtain ⟨hle2, herr2, hok2⟩ :=
                modePulses_inv env m.asU16 s4 r2 s5 hmp
              have hb1 := hok1 v rfl
              cases r2 with
              | error e2 =>
                dsimp only at h
                cases h
                obtain rfl : e2 = NbError.other e := by simpa using he
                obtain ⟨g1, g2, g3⟩ := herr2 e rfl
                exact ⟨g1, by omega, by omega⟩
              | ok u =>
                cases u
                dsimp only at h
                cases h
                exact absurd he (by simp)

/-- C8: if a line access during `retrieve` faults, the run aborts at
that access: the returned error is exactly the oracle's fault at the
last index consumed, at least one access was consumed, and the count of
logged access events grows by exactly the number of consumed accesses
minus the one faulting access — so no clock pulse or data read is
issued after the failure, the error is propagated unchanged, and no
value (partial accumulator) is returned. -/
theorem retrieve_fault_aborts {ε : Type} (m : Mode) (env : Env ε)
    (s : RunSt) (e : ε)
    (h : (retrieve m env s).1 = Except.error (NbError.other e)) :
    env ((retrieve m env s).2.n - 1) = Resp.fault e ∧
    s.n < (retrieve m env s).2.n ∧
    naccs (retrieve m env s).2.tr + 1 =
      naccs s.tr + ((retrieve m env s).2.n - s.n) :=
  retrieve_inv m env s (retrieve m env s).1 (retrieve m env s).2 rfl e h

/-- Witness for C8: the very first clock write faults with error 42;
`retrieve` consumed exactly that one access. -/
theorem retrieve_fault_aborts_witness :
    (fun _ => Resp.fault 42 : Env Nat) 0 = Resp.fault 42 ∧
    0 < (retrieve Mode.chAGain128
      (fun _ => Resp.fault 42 : Env Nat) ⟨0, []⟩).2.n :=
  ⟨rfl, (retrieve_fault_aborts Mode.chAGain128
    (fun _ => Resp.fault 42 : Env Nat) ⟨0, []⟩ 42 rfl).2.1⟩

/-- C9: the published constants are `MAX_VALUE = 8388607 = 0x7FFFFF` and
`MIN_VALUE = 8388608 = 0x800000`; in particular `MIN_VALUE` is the
positive magnitude of the most negative 24-bit value, not the negative
value itself. -/
theorem constants_spec :
    MAX_VALUE = 8388607 ∧ MAX_VALUE = 0x7FFFFF ∧
    MIN_VALUE = 8388608 ∧ MIN_VALUE = 0x800000 ∧ 0 < MIN_VALUE ∧
    MIN_VALUE = -(-(2 ^ 23) : Int) := by
  refine ⟨by norm_num [MAX_VALUE], by norm_num [MAX_VALUE],
    by norm_num [MIN_VALUE], by norm_num [MIN_VALUE],
    by norm_num [MIN_VALUE], by norm_num [MIN_VALUE]⟩
